import Mathlib

/-!
Verification of the hl deploy/rollback pipeline (a single-host deployment
orchestrator written in TypeScript) against its natural-language spec.

The definitions below are a shallow embedding of the code:
  - src/lib/config.ts   : HLConfig, appDir, envFile, parseDuration
  - src/lib/docker.ts   : tagFor, retagLatest, restartCompose, runMigrations
  - src/lib/health.ts   : waitForHealthy, ping
  - src/commands/deploy.ts and src/commands/rollback.js : the two pipelines,
    modelled as the ordered list of external calls they issue, with an
    abort-on-first-failure runner and an explicit registry state.
JS strings are modelled as Lean String over its list of characters; process
failure (execa throwing on a non-zero exit) is modelled by the runner
stopping at the first call the environment reports as failed.
-/

namespace HL

/-- JS `s.slice(0, n)`: the first n characters of the string. -/
def sliceTo (s : String) (n : Nat) : String := String.mk (s.data.take n)

/-- a character a git commit reference is made of: a lowercase hex digit. -/
def isHexChar (c : Char) : Bool :=
  c.isDigit || ('a' ≤ c && c ≤ 'f')

/-- health section of the per-app homelab.yml (config.ts ConfigSchema). -/
structure HealthCfg where
  url : String
  interval : String
  timeout : String
deriving DecidableEq, Repr

/-- migrations section of the per-app homelab.yml; env is an ordered list of
key/value pairs, as Object.entries enumerates it. -/
structure MigrationsCfg where
  command : List String
  env : List (String × String)
deriving DecidableEq, Repr

/-- the validated per-app config (config.ts ConfigSchema / HLConfig). -/
structure HLConfig where
  app : String
  image : String
  domain : String
  servicePort : Nat
  resolver : String
  network : String
  platforms : String
  health : HealthCfg
  migrations : MigrationsCfg
  secrets : List String
deriving DecidableEq, Repr

/-- config.ts HL_ROOT. -/
def HL_ROOT : String := "/home/felipecsl/prj/apps"

/-- config.ts appDir: path.join(HL_ROOT, app). -/
def appDir (app : String) : String := HL_ROOT ++ "/" ++ app

/-- config.ts envFile: path.join(HL_ROOT, app, ".env"). -/
def envFile (app : String) : String := HL_ROOT ++ "/" ++ app ++ "/.env"

/-- decimal value of a digit string, as JS Number gives it for digit input. -/
def digitsToNat (ds : List Char) : Nat :=
  ds.foldl (fun a c => a * 10 + (c.toNat - 48)) 0

/-- config.ts parseDuration: the regex match against (\d+)(ms|s|m) anchored on
both sides, then the unit multiplier; a non-match throws, modelled as none.
The leading digit run is the maximal one, which is what the regex engine
yields since no unit begins with a digit. -/
def parseDuration (s : String) : Option Nat :=
  let ds := s.data.takeWhile Char.isDigit
  let rest := s.data.dropWhile Char.isDigit
  if ds = [] then none
  else if rest = ['m', 's'] then some (digitsToNat ds)
  else if rest = ['s'] then some (digitsToNat ds * 1000)
  else if rest = ['m'] then some (digitsToNat ds * 60000)
  else none

/-- the shape the spec describes for a duration string: a nonempty digit run
followed by one of the units ms, s, m. -/
def DurationShape (s : String) : Prop :=
  ∃ ds us, s.data = ds ++ us ∧ ds ≠ [] ∧ (∀ c ∈ ds, c.isDigit = true) ∧
    (us = ['m', 's'] ∨ us = ['s'] ∨ us = ['m'])

/-- docker.ts tagFor output: the three image references of one deploy. -/
structure TagSet where
  sha : String
  branchSha : String
  latest : String
deriving DecidableEq, Repr

/-- docker.ts tagFor: short = sha.slice(0, 7), then the three template
strings. -/
def tagFor (cfg : HLConfig) (sha branch : String) : TagSet :=
  let short := sliceTo sha 7
  { sha := cfg.image ++ ":" ++ short
    branchSha := cfg.image ++ ":" ++ branch ++ "-" ++ short
    latest := cfg.image ++ ":latest" }

end HL

namespace HL

/-- outcome of one HTTP GET as health.ts ping observes it: a response with a
status code after some latency, or a transport error. -/
inductive HttpOutcome where
  | response (status : Nat) (latencyMs : Nat)
  | transportError
deriving DecidableEq, Repr

/-- health.ts ping: req.setTimeout(3000), a constant in the source,
independent of the overall health-gate timeout. -/
def pingRequestTimeoutMs : Nat := 3000

/-- health.ts ping classification: a request that exceeds the per-request
timeout is destroyed and resolves false; an error event resolves false; a
response resolves statusCode between 200 inclusive and 400 exclusive. -/
def pingOk : HttpOutcome → Bool
  | .response status latencyMs =>
      if pingRequestTimeoutMs ≤ latencyMs then false
      else decide (200 ≤ status) && decide (status < 400)
  | .transportError => false

/-- health.ts waitForHealthy loop body over logical time: elapsed starts at 0,
each unhealthy poll sleeps intervalMs; the loop re-enters only while
elapsed < timeoutMs. Returns (number of polls attempted, success); fuel
bounds the recursion and none marks exhaustion. -/
def healthLoop (timeoutMs intervalMs : Nat) (oracle : Nat → HttpOutcome) :
    Nat → Nat → Nat → Option (Nat × Bool)
  | 0, _, _ => none
  | fuel + 1, elapsed, polls =>
      if elapsed < timeoutMs then
        if pingOk (oracle polls) then some (polls + 1, true)
        else healthLoop timeoutMs intervalMs oracle fuel (elapsed + intervalMs) (polls + 1)
      else some (polls, false)

/-- health.ts waitForHealthy entry: start at elapsed 0 with no polls done. -/
def waitForHealthyRun (timeoutMs intervalMs : Nat) (oracle : Nat → HttpOutcome)
    (fuel : Nat) : Option (Nat × Bool) :=
  healthLoop timeoutMs intervalMs oracle fuel 0 0

end HL

namespace HL

/-- docker.ts runMigrations argument construction: envArgs are the flattened
"-e", "k=v" pairs; runArgs begins with a literal "run" and the final execa
call prepends another "run" before splicing both lists. -/
def migrationArgs (cfg : HLConfig) (imageTag : String) : List String :=
  let envArgs := cfg.migrations.env.flatMap (fun kv => ["-e", kv.1 ++ "=" ++ kv.2])
  let runArgs := ["run", "--rm", "--env-file", envFile cfg.app,
    "--network", cfg.network, imageTag] ++ cfg.migrations.command
  ["run"] ++ envArgs ++ runArgs

/-- flags of docker run that consume a separate value argument, among those
the code can emit. -/
def dockerRunFlagTakesValue (a : String) : Bool :=
  a == "-e" || a == "--env-file" || a == "--network"

/-- an argument the docker CLI reads as a flag: its first character is a
dash. -/
def isFlagArg (a : String) : Bool :=
  match a.data with
  | '-' :: _ => true
  | _ => false

/-- how the docker CLI finds the image positional of a run invocation: skip
flags (with their value when they take one); the first non-flag argument is
the image. Input is the argument list after the run subcommand itself. -/
def dockerRunImage : List String → Option String
  | [] => none
  | [a] => if isFlagArg a then none else some a
  | a :: b :: rest =>
      if dockerRunFlagTakesValue a then dockerRunImage rest
      else if isFlagArg a then dockerRunImage (b :: rest)
      else some a

/-- docker.ts restartCompose first call: docker compose -f compose.yml pull. -/
def composePullArgs : List String := ["compose", "-f", "compose.yml", "pull"]

/-- docker.ts restartCompose second call: docker compose -f compose.yml up -d. -/
def composeUpArgs : List String := ["compose", "-f", "compose.yml", "up", "-d"]

/-- the two compose invocations restartCompose issues, each with its working
directory (the app dir); nothing else of the config is consulted. -/
def restartComposeExecs (cfg : HLConfig) : List (String × List String) :=
  [(appDir cfg.app, composePullArgs), (appDir cfg.app, composeUpArgs)]

/-- the composition files a compose argument list names: the values that
follow each -f flag. -/
def composeFileArgs : List String → List String
  | [] => []
  | [_] => []
  | a :: b :: rest =>
      if a = "-f" then b :: composeFileArgs rest else composeFileArgs (b :: rest)

end HL

namespace HL

/-- one external call of a pipeline run: the docker build, the migration
container, the three retag sub-operations, the two compose calls, and the
health gate. Payloads record the arguments the orchestration passes. -/
inductive Step where
  | build (tags : List String)
  | migrate (imageTag : String)
  | regPull (tag : String)
  | regTag (src dst : String)
  | regPush (tag : String)
  | compPull (files : List String)
  | compUp (files : List String)
  | health (url : String) (timeout : String) (interval : String)
deriving DecidableEq, Repr

/-- pipeline stage of a call: Build 0, Migrate 1, Retag 2, Restart 3,
Health 4. -/
def stageOf : Step → Nat
  | .build _ => 0
  | .migrate _ => 1
  | .regPull _ => 2
  | .regTag _ _ => 2
  | .regPush _ => 2
  | .compPull _ => 3
  | .compUp _ => 3
  | .health _ _ _ => 4

def isBuildStep : Step → Bool
  | .build _ => true
  | _ => false

def isMigrateStep : Step → Bool
  | .migrate _ => true
  | _ => false

def isRetagStep : Step → Bool
  | .regPull _ => true
  | .regTag _ _ => true
  | .regPush _ => true
  | _ => false

def isRestartStep : Step → Bool
  | .compPull _ => true
  | .compUp _ => true
  | _ => false

def isHealthStep : Step → Bool
  | .health _ _ _ => true
  | _ => false

/-- docker.ts retagLatest(image, fromTag): pull fromTag, tag it image:latest,
push image:latest, in that order. -/
def retagLatestSteps (image fromTag : String) : List Step :=
  [.regPull fromTag, .regTag fromTag (image ++ ":latest"), .regPush (image ++ ":latest")]

/-- docker.ts restartCompose: compose pull then compose up -d, both against
the single file compose.yml. -/
def restartComposeSteps : List Step :=
  [.compPull ["compose.yml"], .compUp ["compose.yml"]]

/-- the ordered external calls of one deploy (deploy.ts action): buildAndPush
with all three tags, runMigrations with tags.sha, retagLatest(cfg.image,
tags.sha), restartCompose, waitForHealthy. -/
def deploySteps (cfg : HLConfig) (sha branch : String) : List Step :=
  let tags := tagFor cfg sha branch
  [Step.build [tags.sha, tags.branchSha, tags.latest], Step.migrate tags.sha]
    ++ retagLatestSteps cfg.image tags.sha
    ++ restartComposeSteps
    ++ [Step.health cfg.health.url cfg.health.timeout cfg.health.interval]

/-- the ordered external calls of one rollback (rollback.js action):
retagLatest(cfg.image, image:sha.slice(0,7)), restartCompose,
waitForHealthy; no build and no migration. -/
def rollbackSteps (cfg : HLConfig) (sha : String) : List Step :=
  retagLatestSteps cfg.image (cfg.image ++ ":" ++ sliceTo sha 7)
    ++ restartComposeSteps
    ++ [Step.health cfg.health.url cfg.health.timeout cfg.health.interval]

end HL

namespace HL

/-- durable state outside the process: the registry's tag namespace and the
host's local image tags, each an association list from tag reference to the
image it names (first entry wins). -/
structure RegState where
  registry : List (String × Nat)
  localTags : List (String × Nat)
deriving DecidableEq, Repr

/-- first binding of a key in an association list. -/
def lookupTag : List (String × Nat) → String → Option Nat
  | [], _ => none
  | (k2, v) :: rest, k => if k2 = k then some v else lookupTag rest k

/-- effect of one successful external call on durable state: buildx --push
publishes every requested tag of the new image; pull copies a registry tag
to the local store; tag aliases a local tag; push publishes a local tag;
migration, compose and health calls leave tag state unchanged. -/
def applyStep (newId : Nat) (st : RegState) : Step → RegState
  | .build tags =>
      { st with registry := tags.foldl (fun r t => (t, newId) :: r) st.registry }
  | .regPull t =>
      match lookupTag st.registry t with
      | some v => { st with localTags := (t, v) :: st.localTags }
      | none => st
  | .regTag src dst =>
      match lookupTag st.localTags src with
      | some v => { st with localTags := (dst, v) :: st.localTags }
      | none => st
  | .regPush t =>
      match lookupTag st.localTags t with
      | some v => { st with registry := (t, v) :: st.registry }
      | none => st
  | .migrate _ => st
  | .compPull _ => st
  | .compUp _ => st
  | .health _ _ _ => st

/-- abort-on-first-failure runner (each await throws on failure and the
action stops there): respond says whether a call succeeds; the trace lists
every attempted call, the Bool is overall success, and state evolves only
on successful calls. -/
def runSteps (respond : Step → Bool) (newId : Nat) :
    RegState → List Step → List Step × Bool × RegState
  | st, [] => ([], true, st)
  | st, s :: rest =>
      if respond s then
        let r := runSteps respond newId (applyStep newId st s) rest
        (s :: r.1, r.2.1, r.2.2)
      else ([s], false, st)

/-- the spec's Scenario A config, used as the concrete input of witnesses. -/
def recipesCfg : HLConfig :=
  { app := "recipes"
    image := "registry.example/recipes"
    domain := "recipes.example"
    servicePort := 8080
    resolver := "myresolver"
    network := "traefik_proxy"
    platforms := "linux/amd64"
    health := { url := "http://recipes:8080/healthz", interval := "2s", timeout := "45s" }
    migrations := { command := ["bin/rails", "db:migrate"], env := [("RAILS_ENV", "production")] }
    secrets := [] }

/-- the spec's Scenario C config: app theme with image repository theme. -/
def themeCfg : HLConfig :=
  { app := "theme"
    image := "theme"
    domain := "theme.example"
    servicePort := 8080
    resolver := "myresolver"
    network := "traefik_proxy"
    platforms := "linux/amd64"
    health := { url := "http://theme:8080/healthz", interval := "2s", timeout := "45s" }
    migrations := { command := ["bin/rails", "db:migrate"], env := [] }
    secrets := [] }

end HL

namespace HL

/-! ## Shared lemmas -/

theorem takeWhile_append_of_all {p : Char → Bool} (ds us : List Char)
    (h : ∀ c ∈ ds, p c = true) :
    (ds ++ us).takeWhile p = ds ++ us.takeWhile p := by
  induction ds with
  | nil => simp
  | cons a t ih =>
      have ha : p a = true := h a (by simp)
      have ht : ∀ c ∈ t, p c = true := fun c hc => h c (by simp [hc])
      simp [List.takeWhile_cons, ha, ih ht]

theorem dropWhile_append_of_all {p : Char → Bool} (ds us : List Char)
    (h : ∀ c ∈ ds, p c = true) :
    (ds ++ us).dropWhile p = us.dropWhile p := by
  induction ds with
  | nil => simp
  | cons a t ih =>
      have ha : p a = true := h a (by simp)
      have ht : ∀ c ∈ t, p c = true := fun c hc => h c (by simp [hc])
      simp [List.dropWhile_cons, ha, ih ht]

theorem stage_ordered_of_pairwise {l : List Step}
    (hp : l.Pairwise (fun e f => stageOf e ≤ stageOf f)) :
    ∀ (i j : Nat) (e f : Step),
      l[i]? = some e → l[j]? = some f → stageOf e < stageOf f → i < j := by
  intro i j e f hi hj hlt
  rcases List.getElem?_eq_some.1 hi with ⟨hi2, he⟩
  rcases List.getElem?_eq_some.1 hj with ⟨hj2, hf⟩
  by_contra hij
  push_neg at hij
  rcases Nat.lt_or_ge j i with hji | hji
  · have := (List.pairwise_iff_getElem.1 hp) j i hj2 hi2 hji
    rw [he, hf] at this
    omega
  · have : i = j := by omega
    subst this
    rw [he] at hf
    subst hf
    exact Nat.lt_irrefl _ hlt

theorem runSteps_trace_take (respond : Step → Bool) (newId : Nat) :
    ∀ (l : List Step) (st : RegState),
      ∃ k, (runSteps respond newId st l).1 = l.take k := by
  intro l
  induction l with
  | nil => intro st; exact ⟨0, rfl⟩
  | cons s rest ih =>
      intro st
      by_cases hs : respond s = true
      · rcases ih (applyStep newId st s) with ⟨k, hk⟩
        exact ⟨k + 1, by simp [runSteps, hs, hk]⟩
      · exact ⟨1, by simp [runSteps, hs]⟩

theorem stageOf_of_isMigrate {e : Step} (h : isMigrateStep e = true) : stageOf e = 1 := by
  cases e <;> simp_all [isMigrateStep, stageOf]

theorem stageOf_of_isRetag {e : Step} (h : isRetagStep e = true) : stageOf e = 2 := by
  cases e <;> simp_all [isRetagStep, stageOf]

theorem stageOf_of_isRestart {e : Step} (h : isRestartStep e = true) : stageOf e = 3 := by
  cases e <;> simp_all [isRestartStep, stageOf]

theorem stageOf_of_isHealth {e : Step} (h : isHealthStep e = true) : stageOf e = 4 := by
  cases e <;> simp_all [isHealthStep, stageOf]

theorem deploySteps_pairwise (cfg : HLConfig) (sha branch : String) :
    (deploySteps cfg sha branch).Pairwise (fun e f => stageOf e ≤ stageOf f) := by
  simp [deploySteps, retagLatestSteps, restartComposeSteps, List.pairwise_cons, stageOf]

theorem rollbackSteps_pairwise (cfg : HLConfig) (sha : String) :
    (rollbackSteps cfg sha).Pairwise (fun e f => stageOf e ≤ stageOf f) := by
  simp [rollbackSteps, retagLatestSteps, restartComposeSteps, List.pairwise_cons, stageOf]

theorem sliceTo_ne_of_hex (sha : String)
    (hhex : ∀ c ∈ sha.data, isHexChar c = true) (n : Nat) :
    sliceTo sha n ≠ "latest" := by
  intro h
  have hd : (sliceTo sha n).data = "latest".data := by rw [h]
  have hmem : 'l' ∈ (sliceTo sha n).data := by
    rw [hd]; simp [String.data]
  have hsub : 'l' ∈ sha.data := List.take_subset n sha.data (by
    simpa [sliceTo] using hmem)
  have := hhex 'l' hsub
  simp [isHexChar, Char.isDigit] at this

theorem append_tag_inj (image a b : String)
    (h : image ++ ":" ++ a = image ++ ":" ++ b) : a = b := by
  have hd := congrArg String.data h
  simp only [String.data_append, List.append_assoc] at hd
  have := List.append_cancel_left hd
  have := List.append_cancel_left this
  exact String.ext this

end HL

namespace HL

theorem append_latest_inj (image a : String)
    (h : image ++ ":" ++ a = image ++ ":latest") : a = "latest" := by
  have hd := congrArg String.data h
  simp only [String.data_append] at hd
  rw [List.append_assoc] at hd
  have h3 := List.append_cancel_left hd
  simp only [List.singleton_append] at h3
  injection h3 with h4 h5
  exact String.ext h5

theorem healthLoop_success_has_healthy (timeoutMs intervalMs : Nat)
    (oracle : Nat → HttpOutcome) :
    ∀ (fuel elapsed polls0 polls : Nat),
      healthLoop timeoutMs intervalMs oracle fuel elapsed polls0 = some (polls, true) →
      ∃ i, polls0 ≤ i ∧ i < polls ∧ pingOk (oracle i) = true := by
  intro fuel
  induction fuel with
  | zero => intro e p0 p h; simp [healthLoop] at h
  | succ f ih =>
      intro e p0 p h
      simp only [healthLoop] at h
      by_cases he : e < timeoutMs
      · rw [if_pos he] at h
        by_cases hp : pingOk (oracle p0) = true
        · rw [if_pos hp] at h
          simp only [Option.some.injEq, Prod.mk.injEq] at h
          exact ⟨p0, Nat.le_refl _, by omega, hp⟩
        · rw [if_neg hp] at h
          obtain ⟨i, hi1, hi2, hi3⟩ := ih _ _ _ h
          exact ⟨i, by omega, hi2, hi3⟩
      · rw [if_neg he] at h
        simp at h

end HL

namespace HL

/-! ## Claims -/

/-- C3: for every config, branch, and commit reference of length at least 7,
tagFor returns exactly the three references repo:first7, repo:branch-first7
and repo:latest; the short tag is exactly the first 7 characters of the
commit reference; the latest tag embeds no commit (it does not depend on
the reference at all); and a repeated call with identical input returns the
identical set. -/
theorem tagFor_returns_exact_tag_set (cfg : HLConfig) (sha branch : String)
    (h : 7 ≤ sha.length) :
    (tagFor cfg sha branch).sha = cfg.image ++ ":" ++ sliceTo sha 7
    ∧ (tagFor cfg sha branch).branchSha
        = cfg.image ++ ":" ++ branch ++ "-" ++ sliceTo sha 7
    ∧ (tagFor cfg sha branch).latest = cfg.image ++ ":latest"
    ∧ (sliceTo sha 7).data.length = 7
    ∧ sha.data = (sliceTo sha 7).data ++ sha.data.drop 7
    ∧ (∀ sha2 : String, (tagFor cfg sha2 branch).latest = (tagFor cfg sha branch).latest)
    ∧ tagFor cfg sha branch = tagFor cfg sha branch := by
  have hlen : 7 ≤ sha.data.length := h
  refine ⟨rfl, rfl, rfl, ?_, ?_, fun _ => rfl, rfl⟩
  · simp only [sliceTo, List.length_take]
    omega
  · simp only [sliceTo]
    exact (List.take_append_drop 7 sha.data).symm

/-- C3 witness: the theorem at Scenario A's input, image repository
registry.example/recipes, commit abc123def4567, branch master. -/
theorem tagFor_returns_exact_tag_set_witness :
    (tagFor recipesCfg "abc123def4567" "master").sha
      = recipesCfg.image ++ ":" ++ sliceTo "abc123def4567" 7 :=
  (tagFor_returns_exact_tag_set recipesCfg "abc123def4567" "master" (by decide)).1

/-- C7: parseDuration maps 2s to 2000, 45s to 45000, 100ms to 100 and 1m to
60000; every string made of a nonempty digit run followed by ms, s or m
parses to its decimal value times 1, 1000 or 60000; and a defined result
only ever arises from a string of that shape, so every other string is
rejected (the throw is modelled as none). -/
theorem parseDuration_spec :
    parseDuration "2s" = some 2000
    ∧ parseDuration "45s" = some 45000
    ∧ parseDuration "100ms" = some 100
    ∧ parseDuration "1m" = some 60000
    ∧ (∀ ds : List Char, ds ≠ [] → (∀ c ∈ ds, c.isDigit = true) →
        parseDuration (String.mk (ds ++ ['m', 's'])) = some (digitsToNat ds)
        ∧ parseDuration (String.mk (ds ++ ['s'])) = some (digitsToNat ds * 1000)
        ∧ parseDuration (String.mk (ds ++ ['m'])) = some (digitsToNat ds * 60000))
    ∧ (∀ (s : String) (v : Nat), parseDuration s = some v → DurationShape s) := by
  refine ⟨by decide, by decide, by decide, by decide, ?_, ?_⟩
  · intro ds hne hdig
    have hta := fun us => takeWhile_append_of_all (p := Char.isDigit) ds us hdig
    have hda := fun us => dropWhile_append_of_all (p := Char.isDigit) ds us hdig
    refine ⟨?_, ?_, ?_⟩ <;>
      simp [parseDuration, hta, hda, hne, List.takeWhile, List.dropWhile]
  · intro s v h
    unfold parseDuration at h
    by_cases hds : s.data.takeWhile Char.isDigit = []
    · simp [hds] at h
    · rw [if_neg hds] at h
      refine ⟨s.data.takeWhile Char.isDigit, s.data.dropWhile Char.isDigit,
        (List.takeWhile_append_dropWhile _ _).symm, hds,
        fun c hc => List.mem_takeWhile_imp hc, ?_⟩
      by_cases h1 : s.data.dropWhile Char.isDigit = ['m', 's']
      · exact Or.inl h1
      · rw [if_neg h1] at h
        by_cases h2 : s.data.dropWhile Char.isDigit = ['s']
        · exact Or.inr (Or.inl h2)
        · rw [if_neg h2] at h
          by_cases h3 : s.data.dropWhile Char.isDigit = ['m']
          · exact Or.inr (Or.inr h3)
          · rw [if_neg h3] at h
            exact absurd h (by simp)

/-- C10: the rollback promotion source is image:(first 7 characters of the
operator-supplied reference): two references sharing their first 7
characters yield identical rollback call traces, and every reference is
used truncated to 7 characters, never verbatim. -/
theorem rollback_truncates_reference (cfg : HLConfig) (r1 r2 : String)
    (h : sliceTo r1 7 = sliceTo r2 7) :
    rollbackSteps cfg r1 = rollbackSteps cfg r2
    ∧ (∀ r : String, rollbackSteps cfg r = rollbackSteps cfg (sliceTo r 7)) := by
  constructor
  · simp [rollbackSteps, h]
  · intro r
    have hidem : sliceTo (sliceTo r 7) 7 = sliceTo r 7 := by
      simp [sliceTo, List.take_take]
    simp [rollbackSteps, hidem]

/-- C10 witness: a 7-character reference and a 15-character reference with
the same first 7 characters produce the same rollback trace. -/
theorem rollback_truncates_reference_witness :
    rollbackSteps themeCfg "eef6fc6" = rollbackSteps themeCfg "eef6fc6abcdef99" :=
  (rollback_truncates_reference themeCfg "eef6fc6" "eef6fc6abcdef99" (by decide)).1

end HL

namespace HL

/-- C1: for every config, hex commit reference and branch, the deploy
pipeline's external-call trace invokes the migration step exactly once and
with the shaTag; the shaTag is never the latestTag; every migrate call
comes strictly before every retag call and every retag call strictly
before every restart call; and every aborted run's trace is a prefix of
this ordered plan, so the ordering holds in every run. -/
theorem deploy_pipeline_ordering (cfg : HLConfig) (sha branch : String)
    (hhex : ∀ c ∈ sha.data, isHexChar c = true) :
    ((deploySteps cfg sha branch).filter isMigrateStep
        = [Step.migrate (tagFor cfg sha branch).sha])
    ∧ (tagFor cfg sha branch).sha ≠ (tagFor cfg sha branch).latest
    ∧ (∀ (i j : Nat) (e f : Step),
        (deploySteps cfg sha branch)[i]? = some e →
        (deploySteps cfg sha branch)[j]? = some f →
        isMigrateStep e = true → isRetagStep f = true → i < j)
    ∧ (∀ (i j : Nat) (e f : Step),
        (deploySteps cfg sha branch)[i]? = some e →
        (deploySteps cfg sha branch)[j]? = some f →
        isRetagStep e = true → isRestartStep f = true → i < j)
    ∧ (∀ (respond : Step → Bool) (newId : Nat) (st : RegState),
        ∃ k, (runSteps respond newId st (deploySteps cfg sha branch)).1
            = (deploySteps cfg sha branch).take k) := by
  refine ⟨?_, ?_, ?_, ?_, ?_⟩
  · simp [deploySteps, retagLatestSteps, restartComposeSteps, isMigrateStep, tagFor]
  · intro h
    exact sliceTo_ne_of_hex sha hhex 7 (append_latest_inj cfg.image (sliceTo sha 7) h)
  · intro i j e f hi hj hme hrf
    refine stage_ordered_of_pairwise (deploySteps_pairwise cfg sha branch) i j e f hi hj ?_
    rw [stageOf_of_isMigrate hme, stageOf_of_isRetag hrf]
    omega
  · intro i j e f hi hj hre hrf
    refine stage_ordered_of_pairwise (deploySteps_pairwise cfg sha branch) i j e f hi hj ?_
    rw [stageOf_of_isRetag hre, stageOf_of_isRestart hrf]
    omega
  · intro respond newId st
    exact runSteps_trace_take respond newId _ st

/-- C1 witness: the migration step of the concrete Scenario A deploy is
invoked exactly once, with the shaTag registry.example/recipes:abc123d. -/
theorem deploy_pipeline_ordering_witness :
    (deploySteps recipesCfg "abc123def4567" "master").filter isMigrateStep
      = [Step.migrate (tagFor recipesCfg "abc123def4567" "master").sha] :=
  (deploy_pipeline_ordering recipesCfg "abc123def4567" "master" (by decide)).1

/-- C2 counterexample: a run in which the build succeeds and the migration
step fails. Retagger and StackController are indeed never invoked, but the
registry's previously-promoted latest tag (image 1) has been overwritten by
the build step, which pushes the latest tag of the new image (image 2)
before migrations run; the claim asserts it is left unchanged. -/
theorem migrate_failure_latest_overwritten_cex :
    (runSteps (fun s => !isMigrateStep s) 2
        ⟨[("registry.example/recipes:latest", 1)], []⟩
        (deploySteps recipesCfg "abc123def4567" "master")).2.1 = false
    ∧ (runSteps (fun s => !isMigrateStep s) 2
        ⟨[("registry.example/recipes:latest", 1)], []⟩
        (deploySteps recipesCfg "abc123def4567" "master")).1.filter
          (fun s => isRetagStep s || isRestartStep s) = []
    ∧ lookupTag [("registry.example/recipes:latest", 1)]
        "registry.example/recipes:latest" = some 1
    ∧ lookupTag (runSteps (fun s => !isMigrateStep s) 2
        ⟨[("registry.example/recipes:latest", 1)], []⟩
        (deploySteps recipesCfg "abc123def4567" "master")).2.2.registry
        "registry.example/recipes:latest" = some 2
    ∧ (2 : Nat) ≠ 1 := by
  refine ⟨by decide, by decide, by decide, by decide, by decide⟩

/-- C2 amended: in every deploy run whose build succeeded and whose
migration step fails, the pipeline aborts there: the trace contains no
retag and no restart call and the run reports failure; but the registry's
latest tag is not left unchanged: it already points at the image the build
step pushed, since buildAndPush publishes the latest tag before migrations
run. -/
theorem migrate_failure_stops_before_retag (cfg : HLConfig) (sha branch : String)
    (respond : Step → Bool) (newId : Nat) (st : RegState)
    (hb : respond (Step.build [(tagFor cfg sha branch).sha,
        (tagFor cfg sha branch).branchSha, (tagFor cfg sha branch).latest]) = true)
    (hm : respond (Step.migrate (tagFor cfg sha branch).sha) = false) :
    (runSteps respond newId st (deploySteps cfg sha branch)).1.filter
        (fun s => isRetagStep s || isRestartStep s) = []
    ∧ (runSteps respond newId st (deploySteps cfg sha branch)).2.1 = false
    ∧ lookupTag (runSteps respond newId st (deploySteps cfg sha branch)).2.2.registry
        (tagFor cfg sha branch).latest = some newId := by
  simp [deploySteps, retagLatestSteps, restartComposeSteps, runSteps, hb, hm,
    applyStep, lookupTag, isRetagStep, isRestartStep, isMigrateStep, isBuildStep]

/-- C2 witness: the amended theorem at the concrete Scenario A input with an
environment that fails exactly the migration step. -/
theorem migrate_failure_stops_before_retag_witness :
    (runSteps (fun s => !isMigrateStep s) 2
        ⟨[("registry.example/recipes:latest", 1)], []⟩
        (deploySteps recipesCfg "abc123def4567" "master")).2.1 = false :=
  (migrate_failure_stops_before_retag recipesCfg "abc123def4567" "master"
    (fun s => !isMigrateStep s) 2 ⟨[("registry.example/recipes:latest", 1)], []⟩
    (by decide) (by decide)).2.1

/-- C4 (code bug): runMigrations splices a second literal "run" into the
docker invocation: for the Scenario A config and shaTag the argument list
is run, the env flags, then run again followed by what were meant to be
the run flags; parsing it as the docker CLI does, the image positional is
the literal string run, not the sha tag, so the migration command is not
run in a container created from the sha-tagged image. -/
theorem runMigrations_wrong_image_positional :
    migrationArgs recipesCfg "registry.example/recipes:abc123d"
      = ["run", "-e", "RAILS_ENV=production", "run", "--rm", "--env-file",
          "/home/felipecsl/prj/apps/recipes/.env", "--network", "traefik_proxy",
          "registry.example/recipes:abc123d", "bin/rails", "db:migrate"]
    ∧ dockerRunImage
        ((migrationArgs recipesCfg "registry.example/recipes:abc123d").drop 1)
        = some "run"
    ∧ some "run" ≠ (some "registry.example/recipes:abc123d" : Option String) := by
  refine ⟨by decide, by decide, by decide⟩

/-- C5 counterexample: for the app recipes with the accessory fragment file
compose.postgres.yml present next to compose.yml, the recreate command the
restart step issues names compose.yml only: the fragment is not included,
so the restart step does not discover every present fragment file. -/
theorem restartCompose_omits_fragment_cex :
    restartComposeExecs recipesCfg
      = [("/home/felipecsl/prj/apps/recipes", composePullArgs),
          ("/home/felipecsl/prj/apps/recipes", composeUpArgs)]
    ∧ composeFileArgs composeUpArgs = ["compose.yml"]
    ∧ composeFileArgs composePullArgs = ["compose.yml"]
    ∧ (composeFileArgs composeUpArgs).contains "compose.postgres.yml" = false := by
  refine ⟨by decide, by decide, by decide, by decide⟩

/-- C5 amended: for every app config the restart step issues exactly a
compose pull and then a compose up -d, both in the app directory and each
against the single primary file compose.yml; no fragment discovery takes
place and nothing of the config beyond the app name influences the two
invocations. -/
theorem restartCompose_uses_only_primary_file (cfg : HLConfig) :
    restartComposeExecs cfg
      = [(appDir cfg.app, ["compose", "-f", "compose.yml", "pull"]),
          (appDir cfg.app, ["compose", "-f", "compose.yml", "up", "-d"])]
    ∧ composeFileArgs composePullArgs = ["compose.yml"]
    ∧ composeFileArgs composeUpArgs = ["compose.yml"]
    ∧ (∀ cfg2 : HLConfig, cfg2.app = cfg.app →
        restartComposeExecs cfg2 = restartComposeExecs cfg) := by
  refine ⟨rfl, by decide, by decide, ?_⟩
  intro cfg2 h
  simp [restartComposeExecs, h]

end HL

namespace HL

/-- C6: a single poll is healthy exactly when the response status lies in
[200, 400); a transport error, a status outside that range, and a request
that reaches the per-request bound are all classified unhealthy; the
per-request bound is the source's constant 3000 ms, independent of the
overall gate timeout; and the gate reports overall success only when some
poll was explicitly observed healthy. -/
theorem ping_classification_and_fails_closed :
    (∀ status latencyMs : Nat, latencyMs < pingRequestTimeoutMs →
        (pingOk (.response status latencyMs) = true ↔ 200 ≤ status ∧ status < 400))
    ∧ pingOk .transportError = false
    ∧ (∀ status latencyMs : Nat, pingRequestTimeoutMs ≤ latencyMs →
        pingOk (.response status latencyMs) = false)
    ∧ pingRequestTimeoutMs = 3000
    ∧ (∀ (timeoutMs intervalMs fuel polls : Nat) (oracle : Nat → HttpOutcome),
        waitForHealthyRun timeoutMs intervalMs oracle fuel = some (polls, true) →
        ∃ i, i < polls ∧ pingOk (oracle i) = true) := by
  refine ⟨?_, rfl, ?_, rfl, ?_⟩
  · intro status latencyMs hlt
    simp [pingOk, Nat.not_le_of_lt hlt]
  · intro status latencyMs hge
    simp [pingOk, hge]
  · intro timeoutMs intervalMs fuel polls oracle h
    obtain ⟨i, _, hi2, hi3⟩ :=
      healthLoop_success_has_healthy timeoutMs intervalMs oracle fuel 0 0 polls h
    exact ⟨i, hi2, hi3⟩

/-- C8 counterexample: the duration 0ms parses to 0 and 1s to 1000, so the
parsed timeout is smaller than the parsed interval; yet the gate attempts
zero polls and fails, not the exactly one poll the claim asserts, even
though every poll would have been healthy. -/
theorem health_gate_zero_timeout_cex :
    parseDuration "0ms" = some 0
    ∧ parseDuration "1s" = some 1000
    ∧ 0 < 1000
    ∧ waitForHealthyRun 0 1000 (fun _ => HttpOutcome.response 200 0) 5 = some (0, false)
    ∧ (∀ b : Bool,
        waitForHealthyRun 0 1000 (fun _ => HttpOutcome.response 200 0) 5 ≠ some (1, b)) := by
  refine ⟨by decide, by decide, by decide, by decide, by decide⟩

/-- C8 amended: whenever the parsed timeout is positive and smaller than the
parsed interval, the gate attempts exactly one poll: it succeeds iff that
first poll is healthy and otherwise reports failure without a second
attempt. (As frozen the claim also covers a zero timeout, where the loop
body never runs and zero polls are attempted.) -/
theorem health_gate_single_poll (timeoutMs intervalMs fuel : Nat)
    (oracle : Nat → HttpOutcome)
    (hpos : 0 < timeoutMs) (hlt : timeoutMs < intervalMs) :
    waitForHealthyRun timeoutMs intervalMs oracle (fuel + 2)
      = some (1, pingOk (oracle 0)) := by
  simp only [waitForHealthyRun, healthLoop, if_pos hpos]
  by_cases hp : pingOk (oracle 0) = true
  · rw [hp]
    simp
  · have hpf : pingOk (oracle 0) = false := by
      revert hp
      cases pingOk (oracle 0) <;> simp
    rw [hpf]
    simp only [Bool.false_eq_true, if_false]
    have hno : ¬ (0 + intervalMs < timeoutMs) := by omega
    simp only [healthLoop, if_neg hno]

/-- C8 witness: the amended theorem at timeout 500 ms, interval 1000 ms and
an endpoint that always answers 500: exactly one poll, then failure. -/
theorem health_gate_single_poll_witness :
    waitForHealthyRun 500 1000 (fun _ => HttpOutcome.response 500 0) 2
      = some (1, false) := by
  have h := health_gate_single_poll 500 1000 0 (fun _ => HttpOutcome.response 500 0)
    (by decide) (by decide)
  simpa using h

/-- C9: every rollback trace contains no build and no migrate call, its
stages are exactly retag, retag, retag, restart, restart, health in that
order, every retag call comes strictly before every restart call and every
restart call strictly before the health gate; and for app theme with
target reference eef6fc6 the trace is exactly the promotion of
theme:eef6fc6 to theme:latest, the two compose calls and the health gate. -/
theorem rollback_retag_restart_health_only (cfg : HLConfig) (sha : String) :
    (rollbackSteps cfg sha).all (fun s => !isBuildStep s && !isMigrateStep s) = true
    ∧ (rollbackSteps cfg sha).map stageOf = [2, 2, 2, 3, 3, 4]
    ∧ (∀ (i j : Nat) (e f : Step),
        (rollbackSteps cfg sha)[i]? = some e →
        (rollbackSteps cfg sha)[j]? = some f →
        isRetagStep e = true → isRestartStep f = true → i < j)
    ∧ (∀ (i j : Nat) (e f : Step),
        (rollbackSteps cfg sha)[i]? = some e →
        (rollbackSteps cfg sha)[j]? = some f →
        isRestartStep e = true → isHealthStep f = true → i < j)
    ∧ rollbackSteps themeCfg "eef6fc6"
        = [Step.regPull "theme:eef6fc6", Step.regTag "theme:eef6fc6" "theme:latest",
            Step.regPush "theme:latest", Step.compPull ["compose.yml"],
            Step.compUp ["compose.yml"],
            Step.health "http://theme:8080/healthz" "45s" "2s"] := by
  refine ⟨?_, ?_, ?_, ?_, by decide⟩
  · simp [rollbackSteps, retagLatestSteps, restartComposeSteps,
      isBuildStep, isMigrateStep]
  · simp [rollbackSteps, retagLatestSteps, restartComposeSteps, stageOf]
  · intro i j e f hi hj hre hrf
    refine stage_ordered_of_pairwise (rollbackSteps_pairwise cfg sha) i j e f hi hj ?_
    rw [stageOf_of_isRetag hre, stageOf_of_isRestart hrf]
    omega
  · intro i j e f hi hj hre hhf
    refine stage_ordered_of_pairwise (rollbackSteps_pairwise cfg sha) i j e f hi hj ?_
    rw [stageOf_of_isRestart hre, stageOf_of_isHealth hhf]
    omega

end HL
